import Mathlib

/-!
# Tool policy registry of `ui/build/paths/config.go`

A shallow embedding of the PATH policy table of the Soong UI build
(`PathConfig`, the presets, `GetConfig`, the `Configuration` map literal and
the package `init`), followed by the properties proved about it.

Modelling choices.

* A Go `map[string]PathConfig` is an association list of `(key, value)` pairs.
  `mapIndex` is the comma-ok index expression `m[k]`, `mapAssign` is the
  assignment `m[k] = v` (overwrite in place when the key is present, otherwise
  a new entry).  Both only ever look at the first pair carrying a key, so a
  list whose keys are pairwise distinct is a faithful picture of a map; the
  literal table is such a list (`Configuration_keys_nodup`).
* The package-level variable `Configuration` is threaded explicitly: `GetConfig`
  and `init` take the registry as an argument, `init` returns the new one.
* `runtime.GOOS` is an argument of `init`.
* The `for ... range` loop of `init` visits every key once, reads the value that
  is stored at that moment, and only ever writes to the key it is visiting.
  Go leaves the visiting order unspecified; `rangeLoop` takes the order as an
  argument, `init` uses the order of the list, and `rangeLoop_perm` shows that
  any other order produces the same registry.
-/

namespace Paths

/-- The record `PathConfig` (config.go, lines 19-32). -/
structure PathConfig where
  Symlink : Bool
  Log : Bool
  Error : Bool
  LinuxOnlyPrebuilt : Bool
deriving DecidableEq, Repr

/-- Preset `Allowed` (lines 38-42); fields left out of a Go literal are `false`. -/
def Allowed : PathConfig :=
  { Symlink := true, Log := false, Error := false, LinuxOnlyPrebuilt := false }

/-- Preset `Forbidden` (lines 46-50). -/
def Forbidden : PathConfig :=
  { Symlink := false, Log := true, Error := true, LinuxOnlyPrebuilt := false }

/-- Preset `Log` (lines 53-57). -/
def Log : PathConfig :=
  { Symlink := true, Log := true, Error := false, LinuxOnlyPrebuilt := false }

/-- Preset `Missing` (lines 64-68). -/
def Missing : PathConfig :=
  { Symlink := true, Log := true, Error := true, LinuxOnlyPrebuilt := false }

/-- Preset `LinuxOnlyPrebuilt` (lines 72-77). -/
def LinuxOnlyPrebuilt : PathConfig :=
  { Symlink := false, Log := true, Error := true, LinuxOnlyPrebuilt := true }

/-- A Go `map[string]PathConfig`, as an association list. -/
abbrev Registry := List (String × PathConfig)

/-- The keys of a map, in list order. -/
def mapKeys (m : Registry) : List String :=
  m.map Prod.fst

/-- The index expression `v, ok := m[name]`: `some v` when `ok`, else `none`. -/
def mapIndex : Registry → String → Option PathConfig
  | [], _ => none
  | (k, c) :: rest, name => if k = name then some c else mapIndex rest name

/-- The assignment `m[name] = v`. -/
def mapAssign : Registry → String → PathConfig → Registry
  | [], name, v => [(name, v)]
  | (k, c) :: rest, name, v =>
    if k = name then (k, v) :: rest else (k, c) :: mapAssign rest name v

/-- The function `GetConfig` (lines 79-84), on the registry `cfg`. -/
def GetConfig (cfg : Registry) (name : String) : PathConfig :=
  match mapIndex cfg name with
  | some config => config
  | none => Missing

/-- The map literal `Configuration` (lines 88-154), entry by entry. -/
def Configuration : Registry :=
  [ ("bash", Allowed),
    ("brotli", Allowed),
    ("ccache", Allowed),
    ("cpio", Allowed),
    ("curl", Allowed),
    ("date", Allowed),
    ("diff", Allowed),
    ("dlv", Allowed),
    ("expr", Allowed),
    ("flock", Allowed),
    ("fuser", Allowed),
    ("gcert", Allowed),
    ("gcertstatus", Allowed),
    ("gcloud", Allowed),
    ("getopt", Allowed),
    ("git", Allowed),
    ("hexdump", Allowed),
    ("jar", Allowed),
    ("java", Allowed),
    ("javap", Allowed),
    ("locale", Allowed),
    ("lsof", Allowed),
    ("ld.lld", Allowed),
    ("llvm-ar", Allowed),
    ("nproc", Allowed),
    ("openssl", Allowed),
    ("patch", Allowed),
    ("pkg-config", Allowed),
    ("pstree", Allowed),
    ("python3", Allowed),
    ("python3.6", Allowed),
    ("python3.7", Allowed),
    ("python3.8", Allowed),
    ("python3.9", Allowed),
    ("python3.10", Allowed),
    ("repo", Allowed),
    ("rsync", Allowed),
    ("sh", Allowed),
    ("stubby", Allowed),
    ("tar", Allowed),
    ("tr", Allowed),
    ("unzip", Allowed),
    ("zip", Allowed),
    ("zipdetails", Allowed),
    ("arm-linux-androidkernel-as", Allowed),
    ("arm-linux-androidkernel-ld", Allowed),
    ("ar", Forbidden),
    ("as", Forbidden),
    ("cc", Forbidden),
    ("clang", Forbidden),
    ("clang++", Forbidden),
    ("gcc", Forbidden),
    ("g++", Forbidden),
    ("ld", Allowed),
    ("ld.bfd", Forbidden),
    ("ld.gold", Forbidden),
    ("perl", Allowed),
    ("pgrep", LinuxOnlyPrebuilt),
    ("pkill", LinuxOnlyPrebuilt),
    ("ps", LinuxOnlyPrebuilt) ]

/-- One pass of the body of the `range` loop of `init` (lines 163-167), at the
key `name`: the value stored there is read, and overwritten with `Allowed` when
its `LinuxOnlyPrebuilt` flag is set. -/
def rangeStep (cfg : Registry) (name : String) : Registry :=
  match mapIndex cfg name with
  | some config => if config.LinuxOnlyPrebuilt then mapAssign cfg name Allowed else cfg
  | none => cfg

/-- The `range` loop of `init`, visiting the keys in the order `order`. -/
def rangeLoop (order : List String) (cfg : Registry) : Registry :=
  order.foldl rangeStep cfg

/-- The package initialiser `init` (lines 156-169), for `runtime.GOOS = GOOS`,
run on the registry `cfg`; the result is the registry it leaves behind. -/
def init (GOOS : String) (cfg : Registry) : Registry :=
  if GOOS = "darwin" then
    let cfg1 := mapAssign cfg "sw_vers" Allowed
    let cfg2 := mapAssign cfg1 "xcrun" Allowed
    rangeLoop (mapKeys cfg2) cfg2
  else
    cfg

/-- ASCII upper-casing of a name: `a`..`z` become `A`..`Z`, every other
character is kept. -/
def asciiUpper (s : String) : String :=
  String.mk (s.data.map Char.toUpper)

/-- What one visit of the `range` loop does to the value it finds. -/
def relax (c : PathConfig) : PathConfig :=
  if c.LinuxOnlyPrebuilt then Allowed else c

/-! ## The map primitives -/

theorem relax_relax (c : PathConfig) : relax (relax c) = relax c := by
  unfold relax
  by_cases h : c.LinuxOnlyPrebuilt = true
  · simp [h, Allowed]
  · simp [h]

theorem relax_flag (c : PathConfig) : (relax c).LinuxOnlyPrebuilt = false := by
  unfold relax
  by_cases h : c.LinuxOnlyPrebuilt = true
  · simp [h, Allowed]
  · simp [h]

theorem relax_of_flag_false (c : PathConfig) (h : c.LinuxOnlyPrebuilt = false) :
    relax c = c := by
  simp [relax, h]

theorem mapIndex_eq_none_iff (m : Registry) (name : String) :
    mapIndex m name = none ↔ name ∉ mapKeys m := by
  induction m with
  | nil => simp [mapIndex, mapKeys]
  | cons e rest ih =>
    obtain ⟨k, c⟩ := e
    by_cases hk : k = name
    · simp [mapIndex, mapKeys, hk]
    · have hk2 : ¬ name = k := fun h => hk h.symm
      simpa [mapIndex, mapKeys, hk, hk2] using ih

theorem mem_of_mapIndex (m : Registry) (name : String) (c : PathConfig)
    (h : mapIndex m name = some c) : (name, c) ∈ m := by
  induction m with
  | nil => simp [mapIndex] at h
  | cons e rest ih =>
    obtain ⟨k, d⟩ := e
    by_cases hk : k = name
    · simp [mapIndex, hk] at h
      simp [hk, h]
    · simp [mapIndex, hk] at h
      exact List.mem_cons_of_mem _ (ih h)

theorem mapIndex_of_mem (m : Registry) (hm : (mapKeys m).Nodup) (name : String)
    (c : PathConfig) (h : (name, c) ∈ m) : mapIndex m name = some c := by
  induction m with
  | nil => simp at h
  | cons e rest ih =>
    obtain ⟨k, d⟩ := e
    have hnd : k ∉ mapKeys rest ∧ (mapKeys rest).Nodup := by
      simpa [mapKeys] using hm
    rcases List.mem_cons.mp h with h1 | h1
    · have hk : k = name := (congrArg Prod.fst h1).symm
      have hc : d = c := (congrArg Prod.snd h1).symm
      simp [mapIndex, hk, hc]
    · have hin : name ∈ mapKeys rest := List.mem_map.mpr ⟨(name, c), h1, rfl⟩
      have hk : ¬ k = name := fun e => hnd.1 (e ▸ hin)
      simpa [mapIndex, hk] using ih hnd.2 h1

theorem mapIndex_mapAssign (m : Registry) (name : String) (v : PathConfig) (q : String) :
    mapIndex (mapAssign m name v) q = if name = q then some v else mapIndex m q := by
  induction m with
  | nil => simp [mapAssign, mapIndex]
  | cons e rest ih =>
    obtain ⟨k, c⟩ := e
    by_cases hk : k = name
    · subst hk
      by_cases hq : k = q <;> simp [mapAssign, mapIndex, hq]
    · by_cases hq : k = q
      · subst hq
        have : ¬ name = k := fun h => hk h.symm
        simp [mapAssign, mapIndex, hk, this]
      · simp [mapAssign, mapIndex, hk, hq, ih]

theorem mapAssign_of_mapIndex (m : Registry) (name : String) (v : PathConfig)
    (h : mapIndex m name = some v) : mapAssign m name v = m := by
  induction m with
  | nil => simp [mapIndex] at h
  | cons e rest ih =>
    obtain ⟨k, c⟩ := e
    by_cases hk : k = name
    · simp [mapIndex, hk] at h
      simp [mapAssign, hk, h]
    · simp [mapIndex, hk] at h
      simp [mapAssign, hk, ih h]

theorem mapKeys_mapAssign (m : Registry) (name : String) (v : PathConfig) :
    mapKeys (mapAssign m name v) = if name ∈ mapKeys m then mapKeys m else mapKeys m ++ [name] := by
  induction m with
  | nil => simp [mapAssign, mapKeys]
  | cons e rest ih =>
    obtain ⟨k, c⟩ := e
    by_cases hk : k = name
    · simp [mapAssign, mapKeys, hk]
    · have hk2 : ¬ name = k := fun h => hk h.symm
      have ih2 := ih
      simp only [mapKeys] at ih2
      by_cases hin : name ∈ List.map Prod.fst rest
      · simp [mapAssign, mapKeys, hk, hk2, hin, ih2]
      · simp [mapAssign, mapKeys, hk, hk2, hin, ih2]

/-! ## The `range` loop -/

theorem mapIndex_rangeStep (m : Registry) (name q : String) :
    mapIndex (rangeStep m name) q
      = if name = q then (mapIndex m q).map relax else mapIndex m q := by
  unfold rangeStep
  cases hi : mapIndex m name with
  | none =>
    by_cases hq : name = q
    · subst hq
      simp [hi]
    · simp [hq]
  | some c =>
    by_cases hf : c.LinuxOnlyPrebuilt = true
    · by_cases hq : name = q
      · subst hq
        simp [hf, hi, mapIndex_mapAssign, relax]
      · simp [hf, hq, mapIndex_mapAssign]
    · by_cases hq : name = q
      · subst hq
        simp [hf, hi, relax]
      · simp [hf, hq]

theorem mapKeys_rangeStep (m : Registry) (name : String) :
    mapKeys (rangeStep m name) = mapKeys m := by
  unfold rangeStep
  cases hi : mapIndex m name with
  | none => rfl
  | some c =>
    by_cases hf : c.LinuxOnlyPrebuilt = true
    · have hin : name ∈ mapKeys m := by
        by_contra hn
        rw [(mapIndex_eq_none_iff m name).mpr hn] at hi
        exact Option.noConfusion hi
      simp [hf, mapKeys_mapAssign, hin]
    · simp [hf]

theorem rangeLoop_cons (k : String) (ks : List String) (m : Registry) :
    rangeLoop (k :: ks) m = rangeLoop ks (rangeStep m k) := rfl

theorem mapKeys_rangeLoop (order : List String) (m : Registry) :
    mapKeys (rangeLoop order m) = mapKeys m := by
  induction order generalizing m with
  | nil => rfl
  | cons k ks ih => rw [rangeLoop_cons, ih, mapKeys_rangeStep]

theorem mapIndex_rangeLoop (order : List String) (m : Registry) (q : String) :
    mapIndex (rangeLoop order m) q
      = if q ∈ order then (mapIndex m q).map relax else mapIndex m q := by
  induction order generalizing m with
  | nil => simp [rangeLoop]
  | cons k ks ih =>
    rw [rangeLoop_cons, ih, mapIndex_rangeStep]
    have hrr : (relax ∘ relax) = relax := funext relax_relax
    by_cases hk : k = q
    · subst hk
      by_cases hin : k ∈ ks <;> simp [hin, Option.map_map, hrr]
    · have hk2 : ¬ q = k := fun h => hk h.symm
      by_cases hin : q ∈ ks <;> simp [hin, hk, hk2]

theorem rangeStep_of_flags_false (m : Registry) (name : String)
    (h : ∀ c, mapIndex m name = some c → c.LinuxOnlyPrebuilt = false) :
    rangeStep m name = m := by
  unfold rangeStep
  cases hi : mapIndex m name with
  | none => rfl
  | some c => simp [h c hi]

theorem rangeLoop_of_flags_false (order : List String) (m : Registry)
    (h : ∀ q c, mapIndex m q = some c → c.LinuxOnlyPrebuilt = false) :
    rangeLoop order m = m := by
  induction order with
  | nil => rfl
  | cons k ks ih => rw [rangeLoop_cons, rangeStep_of_flags_false m k (h k), ih]

/-- Two maps with the same keys in the same places and the same value at every
key are the same list, when the keys are pairwise distinct. -/
theorem registry_ext (a b : Registry) (ha : (mapKeys a).Nodup)
    (hk : mapKeys a = mapKeys b) (hv : ∀ q, mapIndex a q = mapIndex b q) : a = b := by
  induction a generalizing b with
  | nil =>
    cases b with
    | nil => rfl
    | cons e rest => simp [mapKeys] at hk
  | cons e rest ih =>
    cases b with
    | nil => simp [mapKeys] at hk
    | cons f rest2 =>
      obtain ⟨k, c⟩ := e
      obtain ⟨k2, c2⟩ := f
      have hk1 : k = k2 ∧ mapKeys rest = mapKeys rest2 := by
        simpa [mapKeys] using hk
      obtain ⟨hkk, hkr⟩ := hk1
      subst hkk
      have hnd : k ∉ mapKeys rest ∧ (mapKeys rest).Nodup := by
        simpa [mapKeys] using ha
      have hc : c = c2 := by
        have := hv k
        simpa [mapIndex] using this
      subst hc
      have hrest : rest = rest2 := by
        apply ih rest2 hnd.2 hkr
        intro q
        by_cases hq : k = q
        · subst hq
          rw [(mapIndex_eq_none_iff rest k).mpr hnd.1,
            (mapIndex_eq_none_iff rest2 k).mpr (hkr ▸ hnd.1)]
        · have := hv q
          simpa [mapIndex, hq] using this
      rw [hrest]

/-- The order in which the `range` loop visits the keys does not matter: on a
map (pairwise distinct keys), every order that visits exactly the keys of the
map leaves the registry that the list order leaves. -/
theorem rangeLoop_perm (m : Registry) (hm : (mapKeys m).Nodup) (order : List String)
    (ho : ∀ q, q ∈ order ↔ q ∈ mapKeys m) :
    rangeLoop order m = rangeLoop (mapKeys m) m := by
  apply registry_ext
  · rw [mapKeys_rangeLoop]; exact hm
  · rw [mapKeys_rangeLoop, mapKeys_rangeLoop]
  · intro q
    rw [mapIndex_rangeLoop, mapIndex_rangeLoop]
    by_cases hq : q ∈ mapKeys m
    · simp [hq, (ho q).mpr hq]
    · have hq2 : q ∉ order := fun h => hq ((ho q).mp h)
      simp [hq, hq2]

/-! ## The initialiser -/

theorem init_darwin (m : Registry) :
    init "darwin" m
      = rangeLoop (mapKeys (mapAssign (mapAssign m "sw_vers" Allowed) "xcrun" Allowed))
          (mapAssign (mapAssign m "sw_vers" Allowed) "xcrun" Allowed) := by
  simp [init]

theorem init_of_ne_darwin (goos : String) (h : goos ≠ "darwin") (m : Registry) :
    init goos m = m := by
  simp [init, h]

theorem mapIndex_rangeLoop_keys (m : Registry) (q : String) :
    mapIndex (rangeLoop (mapKeys m) m) q = (mapIndex m q).map relax := by
  rw [mapIndex_rangeLoop]
  by_cases hq : q ∈ mapKeys m
  · simp [hq]
  · simp [hq, (mapIndex_eq_none_iff m q).mpr hq]

/-- What the registry holds at `q` after `init` ran on a darwin host. -/
theorem mapIndex_init_darwin (m : Registry) (q : String) :
    mapIndex (init "darwin" m) q
      = if q = "sw_vers" ∨ q = "xcrun" then some Allowed else (mapIndex m q).map relax := by
  rw [init_darwin, mapIndex_rangeLoop_keys, mapIndex_mapAssign, mapIndex_mapAssign]
  by_cases h1 : "xcrun" = q
  · subst h1
    simp [relax, Allowed]
  · have h1b : ¬ q = "xcrun" := fun h => h1 h.symm
    by_cases h2 : "sw_vers" = q
    · subst h2
      simp [relax, Allowed]
    · have h2b : ¬ q = "sw_vers" := fun h => h2 h.symm
      simp [h1, h2, h1b, h2b]

theorem mapKeys_init_darwin (m : Registry) :
    mapKeys (init "darwin" m)
      = mapKeys (mapAssign (mapAssign m "sw_vers" Allowed) "xcrun" Allowed) := by
  rw [init_darwin, mapKeys_rangeLoop]

theorem GetConfig_of_mapIndex (m : Registry) (name : String) (c : PathConfig)
    (h : mapIndex m name = some c) : GetConfig m name = c := by
  simp [GetConfig, h]

theorem GetConfig_of_not_key (m : Registry) (name : String) (h : name ∉ mapKeys m) :
    GetConfig m name = Missing := by
  simp [GetConfig, (mapIndex_eq_none_iff m name).mpr h]

theorem GetConfig_of_mem (m : Registry) (hm : (mapKeys m).Nodup) (name : String)
    (c : PathConfig) (h : (name, c) ∈ m) : GetConfig m name = c :=
  GetConfig_of_mapIndex m name c (mapIndex_of_mem m hm name c h)

/-! ## The literal table -/

theorem Configuration_keys_nodup : (mapKeys Configuration).Nodup := by decide

theorem init_darwin_Configuration_keys_nodup :
    (mapKeys (init "darwin" Configuration)).Nodup := by decide

theorem init_Configuration_keys_nodup (goos : String) :
    (mapKeys (init goos Configuration)).Nodup := by
  by_cases h : goos = "darwin"
  · subst h
    exact init_darwin_Configuration_keys_nodup
  · rw [init_of_ne_darwin goos h]
    exact Configuration_keys_nodup

theorem sw_vers_not_key : "sw_vers" ∉ mapKeys Configuration := by decide

theorem xcrun_not_key : "xcrun" ∉ mapKeys Configuration := by decide

theorem key_of_mem (m : Registry) (name : String) (c : PathConfig) (h : (name, c) ∈ m) :
    name ∈ mapKeys m :=
  List.mem_map.mpr ⟨(name, c), h, rfl⟩

/-- A name the literal table lists with a record whose `LinuxOnlyPrebuilt` flag
is clear keeps that record through `init`, on every host. -/
theorem GetConfig_init_of_listed (goos name : String) (c : PathConfig)
    (h : (name, c) ∈ Configuration) (hc : c.LinuxOnlyPrebuilt = false) :
    GetConfig (init goos Configuration) name = c := by
  have hi : mapIndex Configuration name = some c :=
    mapIndex_of_mem Configuration Configuration_keys_nodup name c h
  by_cases hg : goos = "darwin"
  · subst hg
    have hkey : name ∈ mapKeys Configuration := key_of_mem _ _ _ h
    have h1 : ¬ name = "sw_vers" := fun e => sw_vers_not_key (e ▸ hkey)
    have h2 : ¬ name = "xcrun" := fun e => xcrun_not_key (e ▸ hkey)
    apply GetConfig_of_mapIndex
    rw [mapIndex_init_darwin]
    simp [h1, h2, hi, relax_of_flag_false c hc]
  · rw [init_of_ne_darwin goos hg]
    exact GetConfig_of_mapIndex _ _ _ hi

/-! ## Lookup: `GetConfig` -/

/-- C1: on every registry state (the literal table, or the table after `init`
ran for any GOOS value) `GetConfig` returns `Missing`, the record
(true, true, true, false), for every name that is not a key, and the stored
record for every name that is a key; in particular it returns
(true, true, true, false) for "totally-unknown-tool". -/
theorem GetConfig_default_or_stored (cfg : Registry)
    (hcfg : cfg = Configuration ∨ ∃ goos, cfg = init goos Configuration) (name : String) :
    (name ∉ mapKeys cfg → GetConfig cfg name = Missing)
    ∧ (∀ c, (name, c) ∈ cfg → GetConfig cfg name = c)
    ∧ Missing = PathConfig.mk true true true false
    ∧ GetConfig cfg "totally-unknown-tool" = PathConfig.mk true true true false := by
  have hnd : (mapKeys cfg).Nodup := by
    rcases hcfg with h | ⟨goos, h⟩
    · rw [h]; exact Configuration_keys_nodup
    · rw [h]; exact init_Configuration_keys_nodup goos
  refine ⟨GetConfig_of_not_key cfg name, fun c hc => GetConfig_of_mem cfg hnd name c hc,
    rfl, ?_⟩
  rcases hcfg with h | ⟨goos, h⟩
  · rw [h]; decide
  · by_cases hg : goos = "darwin"
    · rw [h, hg]; decide
    · rw [h, init_of_ne_darwin goos hg]; decide

/-- Witness of C1 on the registry a darwin host is left with: the unknown name
gets the default, the listed name "pgrep" gets its stored record. -/
theorem GetConfig_default_or_stored_witness :
    (init "darwin" Configuration = Configuration
        ∨ ∃ goos, init "darwin" Configuration = init goos Configuration)
    ∧ "totally-unknown-tool" ∉ mapKeys (init "darwin" Configuration)
    ∧ GetConfig (init "darwin" Configuration) "totally-unknown-tool" = Missing
    ∧ ("pgrep", Allowed) ∈ init "darwin" Configuration
    ∧ GetConfig (init "darwin" Configuration) "pgrep" = Allowed :=
  ⟨Or.inr ⟨"darwin", rfl⟩, by decide,
    (GetConfig_default_or_stored (init "darwin" Configuration) (Or.inr ⟨"darwin", rfl⟩)
      "totally-unknown-tool").1 (by decide),
    by decide,
    (GetConfig_default_or_stored (init "darwin" Configuration) (Or.inr ⟨"darwin", rfl⟩)
      "pgrep").2.1 Allowed (by decide)⟩

/-- C2, refuted as stated: "sw_vers" is not a key of the literal table, yet on
a darwin host `GetConfig` returns `Allowed` for it, not `Missing`. -/
theorem unlisted_sw_vers_not_Missing_on_darwin :
    "sw_vers" ∉ mapKeys Configuration
    ∧ GetConfig (init "darwin" Configuration) "sw_vers" = Allowed
    ∧ GetConfig (init "darwin" Configuration) "sw_vers" ≠ Missing
    ∧ ¬ (∀ goos name : String, name ∉ mapKeys Configuration →
          GetConfig (init goos Configuration) name = Missing) := by
  refine ⟨by decide, by decide, by decide, ?_⟩
  intro h
  have h1 := h "darwin" "sw_vers" (by decide)
  revert h1
  decide

/-- C2, amended: a name that is not a key of the literal table gets `Missing`
from the initialised registry on every host, except that on a darwin host the
two names `init` adds, "sw_vers" and "xcrun", get `Allowed`. -/
theorem GetConfig_unlisted (goos name : String) (h : name ∉ mapKeys Configuration) :
    (¬ (goos = "darwin" ∧ (name = "sw_vers" ∨ name = "xcrun")) →
        GetConfig (init goos Configuration) name = Missing)
    ∧ (goos = "darwin" ∧ (name = "sw_vers" ∨ name = "xcrun") →
        GetConfig (init goos Configuration) name = Allowed)
    ∧ Missing = PathConfig.mk true true true false := by
  have hi : mapIndex Configuration name = none := (mapIndex_eq_none_iff _ _).mpr h
  refine ⟨?_, ?_, rfl⟩
  · intro hx
    by_cases hg : goos = "darwin"
    · subst hg
      have hx2 : ¬ (name = "sw_vers" ∨ name = "xcrun") := fun e => hx ⟨rfl, e⟩
      simp [GetConfig, mapIndex_init_darwin, hx2, hi]
    · rw [init_of_ne_darwin goos hg]
      exact GetConfig_of_not_key _ _ h
  · rintro ⟨hg, hn⟩
    subst hg
    apply GetConfig_of_mapIndex
    rw [mapIndex_init_darwin]
    simp [hn]

/-- Witness of the amended C2: an unlisted name on a darwin host, and on a
linux host the name "sw_vers". -/
theorem GetConfig_unlisted_witness :
    "totally-unknown-tool" ∉ mapKeys Configuration
    ∧ GetConfig (init "darwin" Configuration) "totally-unknown-tool" = Missing
    ∧ "sw_vers" ∉ mapKeys Configuration
    ∧ GetConfig (init "linux" Configuration) "sw_vers" = Missing
    ∧ GetConfig (init "darwin" Configuration) "sw_vers" = Allowed :=
  ⟨by decide,
    (GetConfig_unlisted "darwin" "totally-unknown-tool" (by decide)).1 (by decide),
    by decide,
    (GetConfig_unlisted "linux" "sw_vers" (by decide)).1 (by decide),
    (GetConfig_unlisted "darwin" "sw_vers" (by decide)).2.1 (by decide)⟩

/-- C3: every name the literal table lists with the preset `Allowed`, the two
HACK entries "ld" and "perl" among them, gets (true, false, false, false) from
the initialised registry, whatever GOOS value `init` ran with. -/
theorem GetConfig_listed_Allowed (goos name : String) (h : (name, Allowed) ∈ Configuration) :
    GetConfig (init goos Configuration) name = PathConfig.mk true false false false
    ∧ GetConfig (init goos Configuration) "ld" = PathConfig.mk true false false false
    ∧ GetConfig (init goos Configuration) "perl" = PathConfig.mk true false false false
    ∧ ("ld", Allowed) ∈ Configuration ∧ ("perl", Allowed) ∈ Configuration :=
  ⟨GetConfig_init_of_listed goos name Allowed h rfl,
    GetConfig_init_of_listed goos "ld" Allowed (by decide) rfl,
    GetConfig_init_of_listed goos "perl" Allowed (by decide) rfl,
    by decide, by decide⟩

/-- Witness of C3 at "bash" on a darwin host. -/
theorem GetConfig_listed_Allowed_witness :
    ("bash", Allowed) ∈ Configuration
    ∧ GetConfig (init "darwin" Configuration) "bash" = PathConfig.mk true false false false :=
  ⟨by decide, (GetConfig_listed_Allowed "darwin" "bash" (by decide)).1⟩

/-- C4: every name the literal table lists with the preset `Forbidden` (these
are ar, as, cc, clang, clang++, gcc, g++, ld.bfd and ld.gold) gets
(false, true, true, false) from the initialised registry, whatever GOOS value
`init` ran with; so does "clang" on darwin and on linux. -/
theorem GetConfig_listed_Forbidden (goos name : String)
    (h : (name, Forbidden) ∈ Configuration) :
    GetConfig (init goos Configuration) name = PathConfig.mk false true true false
    ∧ mapKeys (Configuration.filter (fun e => decide (e.2 = Forbidden)))
        = ["ar", "as", "cc", "clang", "clang++", "gcc", "g++", "ld.bfd", "ld.gold"]
    ∧ GetConfig (init "darwin" Configuration) "clang" = PathConfig.mk false true true false
    ∧ GetConfig (init "linux" Configuration) "clang" = PathConfig.mk false true true false :=
  ⟨GetConfig_init_of_listed goos name Forbidden h rfl, by decide, by decide, by decide⟩

/-- Witness of C4 at "gcc" on a darwin host. -/
theorem GetConfig_listed_Forbidden_witness :
    ("gcc", Forbidden) ∈ Configuration
    ∧ GetConfig (init "darwin" Configuration) "gcc" = PathConfig.mk false true true false :=
  ⟨by decide, (GetConfig_listed_Forbidden "darwin" "gcc" (by decide)).1⟩

/-! ## The platform adjustment: `init` -/

/-- C5: after `init` ran with GOOS = "darwin" on any registry, every key that
held the preset `LinuxOnlyPrebuilt` before holds `Allowed`, and "sw_vers" and
"xcrun" are keys holding `Allowed`; on the literal table `GetConfig` of pgrep,
pkill, ps, sw_vers and xcrun is (true, false, false, false). -/
theorem init_darwin_allows (t : Registry) :
    (∀ name, mapIndex t name = some LinuxOnlyPrebuilt →
        mapIndex (init "darwin" t) name = some Allowed
        ∧ GetConfig (init "darwin" t) name = Allowed)
    ∧ "sw_vers" ∈ mapKeys (init "darwin" t)
    ∧ "xcrun" ∈ mapKeys (init "darwin" t)
    ∧ mapIndex (init "darwin" t) "sw_vers" = some Allowed
    ∧ mapIndex (init "darwin" t) "xcrun" = some Allowed
    ∧ (∀ name ∈ ["pgrep", "pkill", "ps", "sw_vers", "xcrun"],
        GetConfig (init "darwin" Configuration) name = PathConfig.mk true false false false) := by
  have hsw : mapIndex (init "darwin" t) "sw_vers" = some Allowed := by
    rw [mapIndex_init_darwin]; simp
  have hxc : mapIndex (init "darwin" t) "xcrun" = some Allowed := by
    rw [mapIndex_init_darwin]; simp
  have key_of : ∀ q, mapIndex (init "darwin" t) q = some Allowed →
      q ∈ mapKeys (init "darwin" t) := by
    intro q hq
    by_contra hn
    rw [(mapIndex_eq_none_iff _ q).mpr hn] at hq
    exact Option.noConfusion hq
  refine ⟨?_, key_of _ hsw, key_of _ hxc, hsw, hxc, by decide⟩
  intro name hname
  have hidx : mapIndex (init "darwin" t) name = some Allowed := by
    rw [mapIndex_init_darwin, hname]
    by_cases hx : name = "sw_vers" ∨ name = "xcrun"
    · simp [hx]
    · simp [hx, relax, LinuxOnlyPrebuilt]
  exact ⟨hidx, GetConfig_of_mapIndex _ _ _ hidx⟩

/-- Witness of C5 on the literal table at "pgrep". -/
theorem init_darwin_allows_witness :
    mapIndex Configuration "pgrep" = some LinuxOnlyPrebuilt
    ∧ mapIndex (init "darwin" Configuration) "pgrep" = some Allowed
    ∧ GetConfig (init "darwin" Configuration) "pgrep" = Allowed :=
  ⟨by decide, (init_darwin_allows Configuration).1 "pgrep" (by decide)⟩

/-- C6: when `init` runs with a GOOS value other than "darwin", the entries the
literal table sets to `LinuxOnlyPrebuilt` (these are pgrep, pkill and ps) are
unchanged, `GetConfig` gives (false, true, true, true) for them; and for these
names the `Error` field is false exactly when GOOS = "darwin". -/
theorem GetConfig_listed_LinuxOnlyPrebuilt (goos name : String)
    (h : (name, LinuxOnlyPrebuilt) ∈ Configuration) :
    (goos ≠ "darwin" →
        GetConfig (init goos Configuration) name = PathConfig.mk false true true true
        ∧ (name, LinuxOnlyPrebuilt) ∈ init goos Configuration)
    ∧ ((GetConfig (init goos Configuration) name).Error = false ↔ goos = "darwin")
    ∧ mapKeys (Configuration.filter (fun e => decide (e.2 = LinuxOnlyPrebuilt)))
        = ["pgrep", "pkill", "ps"] := by
  have hi : mapIndex Configuration name = some LinuxOnlyPrebuilt :=
    mapIndex_of_mem Configuration Configuration_keys_nodup name _ h
  have hother : goos ≠ "darwin" →
      GetConfig (init goos Configuration) name = PathConfig.mk false true true true := by
    intro hg
    rw [init_of_ne_darwin goos hg]
    exact GetConfig_of_mapIndex _ _ _ hi
  refine ⟨fun hg => ⟨hother hg, ?_⟩, ?_, by decide⟩
  · rw [init_of_ne_darwin goos hg]; exact h
  · constructor
    · intro he
      by_contra hg
      rw [hother hg] at he
      exact Bool.noConfusion he
    · intro hg
      subst hg
      have hidx : mapIndex (init "darwin" Configuration) name = some Allowed := by
        rw [mapIndex_init_darwin, hi]
        by_cases hx : name = "sw_vers" ∨ name = "xcrun"
        · simp [hx]
        · simp [hx, relax, LinuxOnlyPrebuilt]
      rw [GetConfig_of_mapIndex _ _ _ hidx]
      rfl

/-- Witness of C6 at "ps" on a linux host. -/
theorem GetConfig_listed_LinuxOnlyPrebuilt_witness :
    ("ps", LinuxOnlyPrebuilt) ∈ Configuration
    ∧ "linux" ≠ "darwin"
    ∧ GetConfig (init "linux" Configuration) "ps" = PathConfig.mk false true true true
    ∧ ((GetConfig (init "linux" Configuration) "ps").Error = false ↔ "linux" = "darwin") :=
  ⟨by decide, by decide,
    ((GetConfig_listed_LinuxOnlyPrebuilt "linux" "ps" (by decide)).1 (by decide)).1,
    (GetConfig_listed_LinuxOnlyPrebuilt "linux" "ps" (by decide)).2.1⟩

theorem flags_false_init_darwin (t : Registry) (q : String) (c : PathConfig)
    (h : mapIndex (init "darwin" t) q = some c) : c.LinuxOnlyPrebuilt = false := by
  rw [mapIndex_init_darwin] at h
  by_cases hx : q = "sw_vers" ∨ q = "xcrun"
  · simp [hx] at h
    rw [← h]
    rfl
  · simp [hx] at h
    obtain ⟨d, _, hd⟩ := h
    rw [← hd]
    exact relax_flag d

theorem init_darwin_fixed (t : Registry)
    (hsw : mapIndex t "sw_vers" = some Allowed) (hxc : mapIndex t "xcrun" = some Allowed)
    (hfl : ∀ q c, mapIndex t q = some c → c.LinuxOnlyPrebuilt = false) :
    init "darwin" t = t := by
  rw [init_darwin, mapAssign_of_mapIndex t "sw_vers" Allowed hsw,
    mapAssign_of_mapIndex t "xcrun" Allowed hxc]
  exact rangeLoop_of_flags_false (mapKeys t) t hfl

/-- C7: the platform adjustment is idempotent, for every GOOS value and every
registry: running `init` a second time leaves the registry (its keys and its
values) as the first run left it. -/
theorem init_idempotent (p : String) (t : Registry) :
    init p (init p t) = init p t := by
  by_cases hp : p = "darwin"
  · subst hp
    apply init_darwin_fixed
    · rw [mapIndex_init_darwin]; simp
    · rw [mapIndex_init_darwin]; simp
    · exact flags_false_init_darwin t
  · rw [init_of_ne_darwin p hp, init_of_ne_darwin p hp]

/-- C8, refuted as stated: the literal table, and the registry after `init` on
a linux host, hold at "pgrep" the record `LinuxOnlyPrebuilt`, which is none of
`Allowed`, `Forbidden`, `Log`, `Missing`. -/
theorem pgrep_not_one_of_four :
    ("pgrep", LinuxOnlyPrebuilt) ∈ Configuration
    ∧ ("pgrep", LinuxOnlyPrebuilt) ∈ init "linux" Configuration
    ∧ LinuxOnlyPrebuilt ≠ Allowed ∧ LinuxOnlyPrebuilt ≠ Forbidden
    ∧ LinuxOnlyPrebuilt ≠ Log ∧ LinuxOnlyPrebuilt ≠ Missing
    ∧ ¬ (∀ e ∈ Configuration, e.2 = Allowed ∨ e.2 = Forbidden ∨ e.2 = Log ∨ e.2 = Missing)
    ∧ ¬ (∀ goos, ∀ e ∈ init goos Configuration,
          e.2 = Allowed ∨ e.2 = Forbidden ∨ e.2 = Log ∨ e.2 = Missing) := by
  refine ⟨by decide, by decide, by decide, by decide, by decide, by decide, by decide, ?_⟩
  intro h
  have h1 := h "linux"
  revert h1
  decide

/-- C8, amended: in the literal table and in the registry after `init` ran for
any GOOS value, every stored record is one of the five presets `Allowed`,
`Forbidden`, `Log`, `Missing`, `LinuxOnlyPrebuilt`; the fifth only occurs when
GOOS is not "darwin", so after `init` on a darwin host every stored record is
one of the four named presets. -/
theorem stored_records_are_presets (goos : String) :
    (∀ e ∈ Configuration, e.2 = Allowed ∨ e.2 = Forbidden ∨ e.2 = Log ∨ e.2 = Missing
        ∨ e.2 = LinuxOnlyPrebuilt)
    ∧ (∀ e ∈ init goos Configuration,
        e.2 = Allowed ∨ e.2 = Forbidden ∨ e.2 = Log ∨ e.2 = Missing
          ∨ (goos ≠ "darwin" ∧ e.2 = LinuxOnlyPrebuilt)) := by
  refine ⟨by decide, ?_⟩
  by_cases hg : goos = "darwin"
  · subst hg
    decide
  · rw [init_of_ne_darwin goos hg]
    have h5 : ∀ e ∈ Configuration, e.2 = Allowed ∨ e.2 = Forbidden ∨ e.2 = Log
        ∨ e.2 = Missing ∨ e.2 = LinuxOnlyPrebuilt := by decide
    intro e he
    rcases h5 e he with h | h | h | h | h
    · exact Or.inl h
    · exact Or.inr (Or.inl h)
    · exact Or.inr (Or.inr (Or.inl h))
    · exact Or.inr (Or.inr (Or.inr (Or.inl h)))
    · exact Or.inr (Or.inr (Or.inr (Or.inr ⟨hg, h⟩)))

/-- Witness of the amended C8 at two stored entries: "pgrep" after `init` on a
darwin host and on a linux host. -/
theorem stored_records_are_presets_witness :
    ("pgrep", Allowed) ∈ init "darwin" Configuration
    ∧ (Allowed = Allowed ∨ Allowed = Forbidden ∨ Allowed = Log ∨ Allowed = Missing
        ∨ ("darwin" ≠ "darwin" ∧ Allowed = LinuxOnlyPrebuilt))
    ∧ ("pgrep", LinuxOnlyPrebuilt) ∈ init "linux" Configuration
    ∧ (LinuxOnlyPrebuilt = Allowed ∨ LinuxOnlyPrebuilt = Forbidden ∨ LinuxOnlyPrebuilt = Log
        ∨ LinuxOnlyPrebuilt = Missing
        ∨ ("linux" ≠ "darwin" ∧ LinuxOnlyPrebuilt = LinuxOnlyPrebuilt)) :=
  ⟨by decide,
    (stored_records_are_presets "darwin").2 ("pgrep", Allowed) (by decide),
    by decide,
    (stored_records_are_presets "linux").2 ("pgrep", LinuxOnlyPrebuilt) (by decide)⟩

/-- C9: names are matched exactly. For every key of the literal table and every
GOOS value, `GetConfig` of the key with its ASCII letters upper-cased is
`Missing`, `GetConfig` of "/usr/bin/" followed by the key is `Missing`, while
`GetConfig` of the key itself is the record registered for it (which is not
`Missing`); so "bash" gets `Allowed`, "BASH" and "/usr/bin/bash" get `Missing`. -/
theorem GetConfig_exact_match (goos k : String) (hk : k ∈ mapKeys Configuration) :
    GetConfig (init goos Configuration) (asciiUpper k) = Missing
    ∧ GetConfig (init goos Configuration) ("/usr/bin/" ++ k) = Missing
    ∧ (k, GetConfig (init goos Configuration) k) ∈ init goos Configuration
    ∧ GetConfig (init goos Configuration) k ≠ Missing
    ∧ GetConfig (init goos Configuration) "bash" = Allowed
    ∧ GetConfig (init goos Configuration) "BASH" = Missing
    ∧ GetConfig (init goos Configuration) "/usr/bin/bash" = Missing
    ∧ asciiUpper "bash" = "BASH" := by
  by_cases hg : goos = "darwin"
  · subst hg
    have hall : ∀ q ∈ mapKeys Configuration,
        GetConfig (init "darwin" Configuration) (asciiUpper q) = Missing
        ∧ GetConfig (init "darwin" Configuration) ("/usr/bin/" ++ q) = Missing
        ∧ (q, GetConfig (init "darwin" Configuration) q) ∈ init "darwin" Configuration
        ∧ GetConfig (init "darwin" Configuration) q ≠ Missing := by decide
    obtain ⟨h1, h2, h3, h4⟩ := hall k hk
    exact ⟨h1, h2, h3, h4, by decide, by decide, by decide, by decide⟩
  · rw [init_of_ne_darwin goos hg]
    have hall : ∀ q ∈ mapKeys Configuration,
        GetConfig Configuration (asciiUpper q) = Missing
        ∧ GetConfig Configuration ("/usr/bin/" ++ q) = Missing
        ∧ (q, GetConfig Configuration q) ∈ Configuration
        ∧ GetConfig Configuration q ≠ Missing := by decide
    obtain ⟨h1, h2, h3, h4⟩ := hall k hk
    exact ⟨h1, h2, h3, h4, by decide, by decide, by decide, by decide⟩

/-- Witness of C9 at the key "python3.10" on a darwin host. -/
theorem GetConfig_exact_match_witness :
    "python3.10" ∈ mapKeys Configuration
    ∧ GetConfig (init "darwin" Configuration) (asciiUpper "python3.10") = Missing
    ∧ GetConfig (init "darwin" Configuration) ("/usr/bin/" ++ "python3.10") = Missing
    ∧ GetConfig (init "darwin" Configuration) "python3.10" = Allowed :=
  ⟨by decide,
    (GetConfig_exact_match "darwin" "python3.10" (by decide)).1,
    (GetConfig_exact_match "darwin" "python3.10" (by decide)).2.1,
    by decide⟩

/-- C10: with any GOOS value other than "darwin", `init` is the identity on
every registry (same keys, same values). The literal table has neither
"sw_vers" nor "xcrun", so `GetConfig` gives `Missing` for both on such a host,
and `Allowed` for both on a darwin host. -/
theorem init_identity_off_darwin (goos : String) (hg : goos ≠ "darwin") (t : Registry) :
    init goos t = t
    ∧ "sw_vers" ∉ mapKeys Configuration ∧ "xcrun" ∉ mapKeys Configuration
    ∧ GetConfig (init goos Configuration) "sw_vers" = Missing
    ∧ GetConfig (init goos Configuration) "xcrun" = Missing
    ∧ GetConfig (init "darwin" Configuration) "sw_vers" = Allowed
    ∧ GetConfig (init "darwin" Configuration) "xcrun" = Allowed := by
  refine ⟨init_of_ne_darwin goos hg t, sw_vers_not_key, xcrun_not_key, ?_, ?_,
    by decide, by decide⟩
  · rw [init_of_ne_darwin goos hg]; decide
  · rw [init_of_ne_darwin goos hg]; decide

/-- Witness of C10 on a linux host and the literal table. -/
theorem init_identity_off_darwin_witness :
    "linux" ≠ "darwin"
    ∧ init "linux" Configuration = Configuration
    ∧ GetConfig (init "linux" Configuration) "sw_vers" = Missing :=
  ⟨by decide,
    (init_identity_off_darwin "linux" (by decide) Configuration).1,
    (init_identity_off_darwin "linux" (by decide) Configuration).2.2.2.1⟩

/-! ## Key sets and stored flags -/

theorem mem_mapKeys_mapAssign (m : Registry) (name : String) (v : PathConfig) (q : String) :
    q ∈ mapKeys (mapAssign m name v) ↔ q ∈ mapKeys m ∨ q = name := by
  rw [mapKeys_mapAssign]
  by_cases hin : name ∈ mapKeys m
  · simp only [hin, if_true]
    constructor
    · exact Or.inl
    · rintro (h | h)
      · exact h
      · exact h ▸ hin
  · simp [hin]

theorem nodup_mapKeys_mapAssign (m : Registry) (hm : (mapKeys m).Nodup) (name : String)
    (v : PathConfig) : (mapKeys (mapAssign m name v)).Nodup := by
  rw [mapKeys_mapAssign]
  by_cases hin : name ∈ mapKeys m
  · simpa [hin] using hm
  · simp only [hin, if_false]
    refine List.Nodup.append hm (List.nodup_singleton name) ?_
    intro q hq hq1
    have : q = name := by simpa using hq1
    exact hin (this ▸ hq)

theorem mem_mapKeys_init_darwin (t : Registry) (q : String) :
    q ∈ mapKeys (init "darwin" t) ↔ q ∈ mapKeys t ∨ q = "sw_vers" ∨ q = "xcrun" := by
  rw [mapKeys_init_darwin, mem_mapKeys_mapAssign, mem_mapKeys_mapAssign, or_assoc]

theorem nodup_mapKeys_init (goos : String) (t : Registry) (ht : (mapKeys t).Nodup) :
    (mapKeys (init goos t)).Nodup := by
  by_cases hg : goos = "darwin"
  · subst hg
    rw [mapKeys_init_darwin]
    exact nodup_mapKeys_mapAssign _ (nodup_mapKeys_mapAssign t ht _ _) _ _
  · rw [init_of_ne_darwin goos hg]
    exact ht

/-- The record `GetConfig` returns is the default, for a name that is not a
key, or a record stored under that name. -/
theorem GetConfig_cases (m : Registry) (name : String) :
    (name ∉ mapKeys m ∧ GetConfig m name = Missing) ∨ (name, GetConfig m name) ∈ m := by
  cases hi : mapIndex m name with
  | none =>
    have hn : name ∉ mapKeys m := (mapIndex_eq_none_iff m name).mp hi
    exact Or.inl ⟨hn, GetConfig_of_not_key m name hn⟩
  | some c =>
    rw [GetConfig_of_mapIndex m name c hi]
    exact Or.inr (mem_of_mapIndex m name c hi)

/-- C11: after `init` ran with GOOS = "darwin" on any registry, whatever records
it held (records with the flag set and other fields unlike the preset, an
earlier "sw_vers" or "xcrun" entry with the flag set), no stored record has
`LinuxOnlyPrebuilt` set: none that an index expression can read, and, the keys
of a map being pairwise distinct, none in the table at all; so the flag of
`GetConfig` is false for every name. -/
theorem init_darwin_clears_flag (t : Registry) :
    (∀ name c, mapIndex (init "darwin" t) name = some c → c.LinuxOnlyPrebuilt = false)
    ∧ ((mapKeys t).Nodup → ∀ e ∈ init "darwin" t, e.2.LinuxOnlyPrebuilt = false)
    ∧ (∀ name, (GetConfig (init "darwin" t) name).LinuxOnlyPrebuilt = false) := by
  refine ⟨flags_false_init_darwin t, ?_, ?_⟩
  · intro ht e he
    obtain ⟨k, c⟩ := e
    exact flags_false_init_darwin t k c
      (mapIndex_of_mem _ (nodup_mapKeys_init "darwin" t ht) k c he)
  · intro name
    cases hi : mapIndex (init "darwin" t) name with
    | none => simp [GetConfig, hi, Missing]
    | some c =>
      rw [GetConfig_of_mapIndex _ name c hi]
      exact flags_false_init_darwin t name c hi

/-- Witness of C11 on a registry with a flagged "sw_vers", a flagged "xcrun"
and a flagged record that is not the preset. -/
theorem init_darwin_clears_flag_witness :
    (mapKeys [("sw_vers", LinuxOnlyPrebuilt), ("xcrun", PathConfig.mk true false false true),
        ("tool", PathConfig.mk true true false true)]).Nodup
    ∧ (∀ e ∈ init "darwin" [("sw_vers", LinuxOnlyPrebuilt),
          ("xcrun", PathConfig.mk true false false true),
          ("tool", PathConfig.mk true true false true)], e.2.LinuxOnlyPrebuilt = false)
    ∧ init "darwin" [("sw_vers", LinuxOnlyPrebuilt),
          ("xcrun", PathConfig.mk true false false true),
          ("tool", PathConfig.mk true true false true)]
        = [("sw_vers", Allowed), ("xcrun", Allowed), ("tool", Allowed)] :=
  ⟨by decide,
    (init_darwin_clears_flag [("sw_vers", LinuxOnlyPrebuilt),
      ("xcrun", PathConfig.mk true false false true),
      ("tool", PathConfig.mk true true false true)]).2.1 (by decide),
    by decide⟩

/-- C12: frame of the darwin adjustment. After `init` ran with GOOS = "darwin" on
a registry `t`, the keys are those of `t` together with "sw_vers" and "xcrun";
a key other than these two whose record in `t` has the flag clear keeps its
record; and `GetConfig` answers as before for every name other than these two
and the keys whose record had the flag set. -/
theorem init_darwin_frame (t : Registry) :
    (∀ q, q ∈ mapKeys (init "darwin" t) ↔ q ∈ mapKeys t ∨ q = "sw_vers" ∨ q = "xcrun")
    ∧ (∀ q c, q ≠ "sw_vers" → q ≠ "xcrun" → mapIndex t q = some c →
        c.LinuxOnlyPrebuilt = false → mapIndex (init "darwin" t) q = some c)
    ∧ (∀ name, name ≠ "sw_vers" → name ≠ "xcrun" →
        (∀ c, mapIndex t name = some c → c.LinuxOnlyPrebuilt = false) →
        GetConfig (init "darwin" t) name = GetConfig t name) := by
  refine ⟨mem_mapKeys_init_darwin t, ?_, ?_⟩
  · intro q c h1 h2 hi hc
    rw [mapIndex_init_darwin, hi]
    simp [h1, h2, relax_of_flag_false c hc]
  · intro name h1 h2 hfl
    have hidx : mapIndex (init "darwin" t) name = mapIndex t name := by
      rw [mapIndex_init_darwin]
      cases hi : mapIndex t name with
      | none => simp [h1, h2]
      | some c => simp [h1, h2, relax_of_flag_false c (hfl c hi)]
    simp [GetConfig, hidx]

/-- Witness of C12 on the literal table: "bash" keeps its record, the unlisted
"make" stays unlisted, and "xcrun" is a key afterwards. -/
theorem init_darwin_frame_witness :
    mapIndex Configuration "bash" = some Allowed
    ∧ mapIndex (init "darwin" Configuration) "bash" = some Allowed
    ∧ GetConfig (init "darwin" Configuration) "make" = GetConfig Configuration "make"
    ∧ "xcrun" ∈ mapKeys (init "darwin" Configuration) :=
  ⟨by decide,
    (init_darwin_frame Configuration).2.1 "bash" Allowed (by decide) (by decide)
      (by decide) rfl,
    (init_darwin_frame Configuration).2.2 "make" (by decide) (by decide)
      (fun c h => by
        have hn : mapIndex Configuration "make" = none := by decide
        rw [hn] at h
        exact Option.noConfusion h),
    ((init_darwin_frame Configuration).1 "xcrun").mpr (Or.inr (Or.inr rfl))⟩

/-! ## The records of the initialised registry -/

/-- Every record the initialised registry stores is one of three presets. -/
theorem stored_values_init (goos : String) :
    ∀ e ∈ init goos Configuration,
      e.2 = Allowed ∨ e.2 = Forbidden ∨ e.2 = LinuxOnlyPrebuilt := by
  by_cases hg : goos = "darwin"
  · subst hg
    decide
  · rw [init_of_ne_darwin goos hg]
    decide

/-- The record `GetConfig` returns on the initialised registry is one of four
presets; it is `Missing` only for a name that is not a key. -/
theorem GetConfig_init_values (goos name : String) :
    (name ∉ mapKeys (init goos Configuration)
        ∧ GetConfig (init goos Configuration) name = Missing)
    ∨ (name ∈ mapKeys (init goos Configuration)
        ∧ (GetConfig (init goos Configuration) name = Allowed
          ∨ GetConfig (init goos Configuration) name = Forbidden
          ∨ GetConfig (init goos Configuration) name = LinuxOnlyPrebuilt)) := by
  rcases GetConfig_cases (init goos Configuration) name with h | h
  · exact Or.inl h
  · exact Or.inr ⟨key_of_mem _ _ _ h, stored_values_init goos _ h⟩

theorem length_mapKeys_mapAssign_le (m : Registry) (name : String) (v : PathConfig) :
    (mapKeys (mapAssign m name v)).length ≤ (mapKeys m).length + 1 := by
  rw [mapKeys_mapAssign]
  by_cases hin : name ∈ mapKeys m
  · simp [hin]
  · simp [hin]

/-- C13: on the registry built from the literal table and initialised with any
GOOS value, for every name the `Log` field of `GetConfig` equals its `Error`
field (no name, listed or not, gets the log-only preset `Log`), and `Error` is
true whenever `Symlink` is false. -/
theorem GetConfig_log_eq_error (goos name : String) :
    (GetConfig (init goos Configuration) name).Log
        = (GetConfig (init goos Configuration) name).Error
    ∧ ((GetConfig (init goos Configuration) name).Symlink = false →
        (GetConfig (init goos Configuration) name).Error = true)
    ∧ GetConfig (init goos Configuration) name ≠ Log
    ∧ (∀ e ∈ init goos Configuration, e.2 ≠ Log) := by
  have hstored : ∀ e ∈ init goos Configuration, e.2 ≠ Log := by
    intro e he
    rcases stored_values_init goos e he with h | h | h <;> rw [h] <;> decide
  rcases GetConfig_init_values goos name with ⟨_, h⟩ | ⟨_, h | h | h⟩ <;>
    exact ⟨by rw [h]; rfl, by rw [h]; decide, by rw [h]; decide, hstored⟩

/-- Witness of C13 at "gcc", whose `Symlink` is false, on a linux host. -/
theorem GetConfig_log_eq_error_witness :
    (GetConfig (init "linux" Configuration) "gcc").Symlink = false
    ∧ (GetConfig (init "linux" Configuration) "gcc").Error = true
    ∧ (GetConfig (init "linux" Configuration) "gcc").Log = true :=
  ⟨by decide,
    (GetConfig_log_eq_error "linux" "gcc").2.1 (by decide),
    by decide⟩

/-- C14: on the registry built from the literal table and initialised with any
GOOS value, `GetConfig` returns `Missing` for a name exactly when the name is
not a key of the registry; no key is stored with a record equal to `Missing`. -/
theorem GetConfig_Missing_iff_not_key (goos name : String) :
    (GetConfig (init goos Configuration) name = Missing
        ↔ name ∉ mapKeys (init goos Configuration))
    ∧ (∀ e ∈ init goos Configuration, e.2 ≠ Missing) := by
  constructor
  · constructor
    · intro hm
      rcases GetConfig_init_values goos name with ⟨hn, _⟩ | ⟨_, h | h | h⟩
      · exact hn
      · rw [h] at hm; exact absurd hm (by decide)
      · rw [h] at hm; exact absurd hm (by decide)
      · rw [h] at hm; exact absurd hm (by decide)
    · exact GetConfig_of_not_key _ name
  · intro e he
    rcases stored_values_init goos e he with h | h | h <;> rw [h] <;> decide

/-- Witness of C14 on a darwin host: "make" is not a key and gets `Missing`,
"xcrun" is a key and does not. -/
theorem GetConfig_Missing_iff_not_key_witness :
    "make" ∉ mapKeys (init "darwin" Configuration)
    ∧ GetConfig (init "darwin" Configuration) "make" = Missing
    ∧ GetConfig (init "darwin" Configuration) "xcrun" ≠ Missing
    ∧ ¬ ("xcrun" ∉ mapKeys (init "darwin" Configuration)) :=
  ⟨by decide,
    (GetConfig_Missing_iff_not_key "darwin" "make").1.mpr (by decide),
    by decide,
    fun h => absurd ((GetConfig_Missing_iff_not_key "darwin" "xcrun").1.mpr h) (by decide)⟩

/-- C15: keys are unique. Read as a list of pairs, the literal table has no two
pairs with the same name, so the record `GetConfig` returns for a listed name
is the record of whichever pair with that name is taken; and `init`, for any
GOOS value, keeps the keys of a registry pairwise distinct, with at most one
entry each for "sw_vers" and "xcrun" and at most two entries more than before. -/
theorem keys_unique (goos : String) (t : Registry) (ht : (mapKeys t).Nodup) :
    (mapKeys Configuration).Nodup
    ∧ (∀ name c d, (name, c) ∈ Configuration → (name, d) ∈ Configuration → c = d)
    ∧ (∀ name c, (name, c) ∈ Configuration → GetConfig Configuration name = c)
    ∧ (mapKeys (init goos t)).Nodup
    ∧ (mapKeys (init goos t)).count "sw_vers" ≤ 1
    ∧ (mapKeys (init goos t)).count "xcrun" ≤ 1
    ∧ (mapKeys (init goos t)).length ≤ (mapKeys t).length + 2
    ∧ (mapKeys (init goos Configuration)).Nodup := by
  have hnd : (mapKeys (init goos t)).Nodup := nodup_mapKeys_init goos t ht
  refine ⟨Configuration_keys_nodup, ?_, GetConfig_of_mem _ Configuration_keys_nodup, hnd,
    List.nodup_iff_count_le_one.mp hnd _, List.nodup_iff_count_le_one.mp hnd _, ?_,
    nodup_mapKeys_init goos _ Configuration_keys_nodup⟩
  · intro name c d hc hd
    have h1 := mapIndex_of_mem _ Configuration_keys_nodup name c hc
    have h2 := mapIndex_of_mem _ Configuration_keys_nodup name d hd
    rw [h1] at h2
    exact Option.some.inj h2
  · by_cases hg : goos = "darwin"
    · subst hg
      rw [mapKeys_init_darwin]
      have h1 := length_mapKeys_mapAssign_le t "sw_vers" Allowed
      have h2 := length_mapKeys_mapAssign_le (mapAssign t "sw_vers" Allowed) "xcrun" Allowed
      omega
    · rw [init_of_ne_darwin goos hg]
      omega

/-- Witness of C15: `init` on a darwin host, run on a registry that already has
the key "xcrun". -/
theorem keys_unique_witness :
    (mapKeys [("xcrun", Forbidden), ("ps", LinuxOnlyPrebuilt)]).Nodup
    ∧ (mapKeys (init "darwin" [("xcrun", Forbidden), ("ps", LinuxOnlyPrebuilt)])).Nodup
    ∧ mapKeys (init "darwin" [("xcrun", Forbidden), ("ps", LinuxOnlyPrebuilt)])
        = ["xcrun", "ps", "sw_vers"] :=
  ⟨by decide,
    (keys_unique "darwin" [("xcrun", Forbidden), ("ps", LinuxOnlyPrebuilt)]
      (by decide)).2.2.2.1,
    by decide⟩

end Paths
